import Mathlib

/-!
Shallow embedding of the biomedical literature ingestion / retrieval system
(`app/services/bulk_ingestion_service.py`, `app/services/rag_service.py`,
`app/services/embedding_service.py`, `app/services/vector_db_service.py`,
`app/core/config.py`) together with proofs settling the specification claims.

Text values manipulated character-by-character by the Python code (titles,
abstracts, full text, search content, queries) are modelled as `List Char`;
identifiers and status tags are modelled as `String`.  Fallible collaborator
calls (database queries, embedding calls, vector-store calls) are modelled with
`Except Unit` together with explicit failure-injection flags in environment
records, mirroring which Python statements can raise.
-/

namespace BiomedRag

/-- Configuration constants from `app/core/config.py` (`Settings`). -/
def CHUNK_SIZE : Nat := 1000

/-- `Settings.CHUNK_OVERLAP` in `app/core/config.py`. -/
def CHUNK_OVERLAP : Nat := 200

/-- `Settings.BATCH_SIZE` in `app/core/config.py`. -/
def BATCH_SIZE : Nat := 100

/-- Lower-casing of a character sequence, modelling Python `str.lower()`
(ASCII-faithful). -/
def lowerChars (s : List Char) : List Char := s.map Char.toLower

/-- Helper for `pyWords`: scan the characters, accumulating the current
word in reverse; whitespace closes the current word (if nonempty), and the
final word is flushed at the end. -/
def pyWordsAux (acc : List Char) : List Char → List (List Char)
  | [] => if acc.isEmpty then [] else [acc.reverse]
  | c :: t =>
    if c.isWhitespace then
      if acc.isEmpty then pyWordsAux [] t else acc.reverse :: pyWordsAux [] t
    else pyWordsAux (c :: acc) t

/-- Python `str.split()` with no argument: split on runs of whitespace,
dropping empty pieces.  Defined directly on character lists. -/
def pyWords (s : List Char) : List (List Char) := pyWordsAux [] s

/-- The chunking loop of `EmbeddingService._split_text_into_chunks`
(`app/services/embedding_service.py` lines 158-166), operating on the word
list.  `start` is the loop variable; each iteration takes
`words[start:min(start+chunkSize, len(words))]` and advances `start` by
`chunkSize - overlap` while the slice end is strictly inside the list.
The hypothesis `overlap < chunkSize` is exactly what makes the Python loop
terminate. -/
def chunkWordsGo (chunkSize overlap : Nat) (hov : overlap < chunkSize)
    (words : List String) (start : Nat) : List (List String) :=
  if h : start < words.length then
    let e := min (start + chunkSize) words.length
    let chunk := (words.drop start).take (e - start)
    if he : e < words.length then
      chunk :: chunkWordsGo chunkSize overlap hov words (e - overlap)
    else [chunk]
  else []
termination_by words.length - start
decreasing_by simp only [e] at he ⊢; omega

/-- `EmbeddingService._split_text_into_chunks` restricted to its word-level
content: the list of word slices produced by the loop, using the configured
chunk size and overlap.  The Python function returns each slice joined with
single spaces; the join is applied in `splitTextIntoChunks`. -/
def splitTextIntoChunksWords (text : List Char) : List (List String) :=
  chunkWordsGo CHUNK_SIZE CHUNK_OVERLAP (by decide)
    ((pyWords text).map (fun w => String.mk w)) 0

/-- `EmbeddingService._split_text_into_chunks`: each word slice joined with
`' '`, as in `' '.join(words[start:end])`. -/
def splitTextIntoChunks (text : List Char) : List String :=
  (splitTextIntoChunksWords text).map (fun ws => String.intercalate " " ws)

/-! ## Duplicate detection (`BulkIngestionService._check_duplicate`) -/

/-- A raw normalized document record as produced by the Paper Source
(`paper_data` dictionaries in `bulk_ingestion_service.py`): the fields the
core reads.  `title` defaults to the empty string when absent
(`paper_data.get('title', '')`). -/
structure PaperData where
  pmid : Option String
  doi : Option String
  title : List Char
  abstract : Option (List Char)
  mesh_terms : List String
  full_text : Option (List Char)
deriving Repr, DecidableEq

/-- A stored paper row, as visible to the three duplicate-check SQL queries. -/
structure StoredPaper where
  pmid : Option String
  doi : Option String
  title : List Char
deriving Repr, DecidableEq

/-- The content fingerprint used by the title fallback:
`hashlib.md5(title.lower().encode()).hexdigest()[:8]`, with the MD5 hex digest
abstracted as a function parameter `md5hex`. -/
def titleFingerprint (md5hex : List Char → List Char) (title : List Char) : List Char :=
  (md5hex (lowerChars title)).take 8

/-- Failure injection for the three repository queries issued by
`_check_duplicate`: each flag says whether the corresponding
`session.execute` raises. -/
structure DupFailures where
  pmidQueryFails : Bool
  doiQueryFails : Bool
  titleQueryFails : Bool
deriving Repr, DecidableEq

/-- The `SELECT id FROM papers WHERE pmid = :pmid` query. -/
def pmidQuery (fl : DupFailures) (stored : List StoredPaper) (pmid : String) :
    Except Unit Bool :=
  if fl.pmidQueryFails then .error ()
  else .ok (stored.any (fun q => q.pmid = some pmid))

/-- The `SELECT id FROM papers WHERE doi = :doi` query. -/
def doiQuery (fl : DupFailures) (stored : List StoredPaper) (doi : String) :
    Except Unit Bool :=
  if fl.doiQueryFails then .error ()
  else .ok (stored.any (fun q => q.doi = some doi))

/-- The fallback query
`SELECT id FROM papers WHERE SUBSTRING(MD5(LOWER(title)), 1, 8) = :title_hash`,
with `:title_hash = md5(candidate_title.lower())[:8]`. -/
def titleHashQuery (md5hex : List Char → List Char) (fl : DupFailures)
    (stored : List StoredPaper) (title : List Char) : Except Unit Bool :=
  if fl.titleQueryFails then .error ()
  else .ok (stored.any
    (fun q => titleFingerprint md5hex q.title = titleFingerprint md5hex title))

/-- The body of `BulkIngestionService._check_duplicate` before its
`except` clause: PMID check when the candidate has a PMID (early `return
True` on a hit), then DOI check when it has a DOI, then the
title-fingerprint fallback; an error in any executed query propagates. -/
def checkDuplicateE (md5hex : List Char → List Char) (fl : DupFailures)
    (stored : List StoredPaper) (p : PaperData) : Except Unit Bool :=
  let pmidStep : Except Unit Bool :=
    match p.pmid with
    | some pm => pmidQuery fl stored pm
    | none => .ok false
  match pmidStep with
  | .error e => .error e
  | .ok true => .ok true
  | .ok false =>
    let doiStep : Except Unit Bool :=
      match p.doi with
      | some d => doiQuery fl stored d
      | none => .ok false
    match doiStep with
    | .error e => .error e
    | .ok true => .ok true
    | .ok false => titleHashQuery md5hex fl stored p.title

/-- `BulkIngestionService._check_duplicate`: any exception in the body is
caught and the function returns `False` (fail-open). -/
def checkDuplicate (md5hex : List Char → List Char) (fl : DupFailures)
    (stored : List StoredPaper) (p : PaperData) : Bool :=
  match checkDuplicateE md5hex fl stored p with
  | .ok b => b
  | .error _ => false

/-- The duplicate-check behaviour as worded by the specification (used only to
state the refinement claim C5): ordered checks with first match wins —
(1) exact `pmid` match when the candidate has a `pmid`, (2) exact `doi` match
when it has a `doi`, (3) the truncated title-fingerprint comparison — where a
repository error in the check being evaluated makes the overall answer
`false` (fail-open). -/
def specOrderedDupCheck (md5hex : List Char → List Char) (fl : DupFailures)
    (stored : List StoredPaper) (p : PaperData) : Bool :=
  let step (q : Except Unit Bool) (rest : Bool) : Bool :=
    match q with
    | .error _ => false
    | .ok true => true
    | .ok false => rest
  let fallback :=
    match titleHashQuery md5hex fl stored p.title with
    | .error _ => false
    | .ok b => b
  let afterPmid :=
    match p.doi with
    | some d => step (doiQuery fl stored d) fallback
    | none => fallback
  match p.pmid with
  | some pm => step (pmidQuery fl stored pm) afterPmid
  | none => afterPmid

/-! ## Batch processing (`BulkIngestionService._process_paper_batch`) -/

/-- `quality_score=0.7`, the default assigned in
`BulkIngestionService._create_paper_record`. -/
def defaultQualityScore : ℚ := mkRat 7 10

/-- One document of a batch together with the behaviour of the collaborator
calls made while processing it: the outcome of `_check_duplicate` (a `Bool`,
since that method never raises), and whether `_create_paper_record`,
`rag_service.process_paper_for_rag`, and the per-document `session.commit()`
raise. -/
structure PaperEvent where
  pmid : Option String
  isDup : Bool
  createFails : Bool
  ragFails : Bool
  commitFails : Bool
deriving Repr, DecidableEq

/-- The mutable `results` dictionary of `_process_paper_batch`. -/
structure BatchResults where
  successful : Nat
  failed : Nat
  duplicates : Nat
  errors : List String
deriving Repr, DecidableEq

/-- The error message appended on a per-document exception:
`f"Paper {paper_data.get('pmid', 'unknown')}: {str(e)}"` (the exception text
itself is irrelevant to the claims and elided). -/
def paperErrorMsg (e : PaperEvent) : String :=
  "Paper " ++ (e.pmid.getD "unknown")

/-- The per-document body of the loop in
`BulkIngestionService._process_paper_batch` (lines 173-199): duplicate
check, paper creation, quality gate, RAG processing, commit, with the
surrounding `except` incrementing `failed` and appending an error.  Note that
`session.commit()` runs inside the `try` after the category counter was
already incremented, so a commit failure adds a second increment. -/
def processPaper (threshold : ℚ) (r : BatchResults) (e : PaperEvent) : BatchResults :=
  if e.isDup then
    { r with duplicates := r.duplicates + 1 }
  else if e.createFails then
    { r with failed := r.failed + 1, errors := r.errors ++ [paperErrorMsg e] }
  else if defaultQualityScore ≥ threshold then
    if e.ragFails then
      { r with failed := r.failed + 1, errors := r.errors ++ [paperErrorMsg e] }
    else if e.commitFails then
      { r with successful := r.successful + 1, failed := r.failed + 1,
               errors := r.errors ++ [paperErrorMsg e] }
    else
      { r with successful := r.successful + 1 }
  else
    if e.commitFails then
      { r with failed := r.failed + 2, errors := r.errors ++ [paperErrorMsg e] }
    else
      { r with failed := r.failed + 1 }

/-- `BulkIngestionService._process_paper_batch`. -/
def processPaperBatch (threshold : ℚ) (batch : List PaperEvent) : BatchResults :=
  batch.foldl (processPaper threshold) ⟨0, 0, 0, []⟩

/-- The running job counters maintained by `_execute_bulk_ingestion`
(`total_processed`, `successful_papers`, `failed_papers`,
`duplicate_papers`). -/
structure JobCounters where
  processed : Nat
  successful : Nat
  failed : Nat
  duplicates : Nat
deriving Repr, DecidableEq

/-- One batch iteration of `_execute_bulk_ingestion` (lines 114-135):
process the batch, then advance `processed` by the batch length and the
category counters by the batch results. -/
def stepBatch (threshold : ℚ) (c : JobCounters) (batch : List PaperEvent) :
    JobCounters :=
  let r := processPaperBatch threshold batch
  { processed := c.processed + batch.length,
    successful := c.successful + r.successful,
    failed := c.failed + r.failed,
    duplicates := c.duplicates + r.duplicates }

/-- The sequence of progress checkpoints written by
`_update_job_progress` after each batch of `_execute_bulk_ingestion`,
starting from counters `c`. -/
def jobCheckpoints (threshold : ℚ) (c : JobCounters) :
    List (List PaperEvent) → List JobCounters
  | [] => []
  | b :: bs =>
    let c1 := stepBatch threshold c b
    c1 :: jobCheckpoints threshold c1 bs

/-- `papers_data[i:i+batch_size]` slicing: the batches processed by
`_execute_bulk_ingestion`. -/
def toBatches (batchSize : Nat) (papers : List PaperEvent) : List (List PaperEvent) :=
  if h : batchSize = 0 then []
  else if hp : papers = [] then []
  else papers.take batchSize :: toBatches batchSize (papers.drop batchSize)
termination_by papers.length
decreasing_by
  have : papers.length ≠ 0 := fun hlen => hp (List.length_eq_zero.mp hlen)
  simp only [List.length_drop]; omega

/-! ## Job lifecycle (`start_bulk_ingestion`, `_execute_bulk_ingestion`,
`pause_job`, `cancel_job`, `get_job_status`) -/

/-- The fields of a `BulkIngestionRequest` read by the bulk ingestion
service (`request.source_database`, `request.quality_threshold`; the
remaining request fields only parameterize the Paper Source fetch). -/
structure IngestRequest where
  source_database : String
  quality_threshold : ℚ
deriving Repr, DecidableEq

/-- A persisted `ingestion_jobs` row, restricted to the fields the claims
mention. -/
structure JobRecord where
  id : String
  source : String
  status : String
  counters : JobCounters
  errors : List String
deriving Repr, DecidableEq

/-- Orchestrator state: the job store (rows of `ingestion_jobs`) and the
process-local `self.active_jobs` index (modelled by its key set). -/
structure OrchState where
  jobStore : List JobRecord
  activeJobs : List String
deriving Repr, DecidableEq

/-- The `UPDATE ingestion_jobs SET status = ... WHERE id = :job_id` issued by
`_update_job_status`: rows with a different id (including the case of an
absent id) are untouched. -/
def setJobStatus (store : List JobRecord) (jobId status : String) :
    List JobRecord :=
  store.map (fun j => if j.id = jobId then { j with status := status } else j)

/-- The `IngestionJob` row created by `start_bulk_ingestion`: status
`pending`, all counters zero. -/
def pendingJob (jobId : String) (req : IngestRequest) : JobRecord :=
  { id := jobId, source := req.source_database, status := "pending",
    counters := ⟨0, 0, 0, 0⟩, errors := [] }

/-- `BulkIngestionService.start_bulk_ingestion`: unconditionally create the
job row in status `pending`, register it in `active_jobs`, schedule the
background execution, and return the generated job id (the id is supplied by
the environment here, standing for `uuid.uuid4()`). -/
def startBulkIngestion (jobId : String) (req : IngestRequest) (s : OrchState) :
    String × OrchState :=
  (jobId, { jobStore := s.jobStore ++ [pendingJob jobId req],
            activeJobs := s.activeJobs ++ [jobId] })

/-- Environment for one background execution: the outcome of
`pubmed_service.bulk_search_and_fetch` (either a transport error message or
the fetched candidate documents, each bundled with its collaborator
behaviour). -/
structure ExecEnv where
  fetch : Except String (List PaperEvent)

/-- `BulkIngestionService._execute_bulk_ingestion`: mark the job running;
fetch from the source — any source other than `"pubmed"` raises
`ValueError(f"Unsupported source database: {source}")`; process the fetched
documents in batches of `BATCH_SIZE`; record completion or failure; finally
drop the job from `active_jobs`.  Jobs absent from `active_jobs` return
without touching the store. -/
def executeBulkIngestion (jobId : String) (req : IngestRequest) (env : ExecEnv)
    (s : OrchState) : OrchState :=
  if jobId ∈ s.activeJobs then
    let store1 := setJobStatus s.jobStore jobId "running"
    let store2 :=
      if req.source_database = "pubmed" then
        match env.fetch with
        | .error e =>
          (setJobStatus store1 jobId "failed").map
            (fun j => if j.id = jobId then { j with errors := [e] } else j)
        | .ok papers =>
          let final :=
            (jobCheckpoints req.quality_threshold ⟨0, 0, 0, 0⟩
              (toBatches BATCH_SIZE papers)).getLastD ⟨0, 0, 0, 0⟩
          (setJobStatus store1 jobId "completed").map
            (fun j => if j.id = jobId then { j with counters := final } else j)
      else
        (setJobStatus store1 jobId "failed").map
          (fun j => if j.id = jobId then
            { j with errors := ["Unsupported source database: " ++ req.source_database] }
          else j)
    { jobStore := store2, activeJobs := s.activeJobs.filter (fun i => i ≠ jobId) }
  else s

/-- `BulkIngestionService.get_job_status`: a lookup in the job store,
`None` (NotFound) when the id is unknown. -/
def getJobStatus (jobId : String) (s : OrchState) : Option JobRecord :=
  s.jobStore.find? (fun j => j.id = jobId)

/-- `BulkIngestionService.pause_job`: only jobs present in `active_jobs` are
paused; for any other id the method returns `False` without touching the
store. -/
def pauseJob (jobId : String) (s : OrchState) : Bool × OrchState :=
  if jobId ∈ s.activeJobs then
    (true, { s with jobStore := setJobStatus s.jobStore jobId "paused" })
  else (false, s)

/-- `BulkIngestionService.cancel_job`: remove the id from `active_jobs` when
present, then unconditionally issue the status update to `"failed"` and
return `True` — there is no not-found branch. -/
def cancelJob (jobId : String) (s : OrchState) : Bool × OrchState :=
  (true, { jobStore := setJobStatus s.jobStore jobId "failed",
           activeJobs := s.activeJobs.filter (fun i => i ≠ jobId) })

/-! ## Highlight extraction (`RAGService._generate_highlight`) -/

/-- Does `pat` occur at the head of `s`?  (Python slice comparison used by
substring search.) -/
def listStartsWith : List Char → List Char → Bool
  | [], _ => true
  | _ :: _, [] => false
  | a :: as, b :: bs => a = b && listStartsWith as bs

/-- Python `str.find`: index of the first occurrence of `pat` in `s`, `none`
when absent (Python returns `-1`; `none` models the `word in content_lower`
guard being false). -/
def pyFind (pat : List Char) : List Char → Option Nat
  | [] => if listStartsWith pat [] then some 0 else none
  | c :: t =>
    if listStartsWith pat (c :: t) then some 0
    else (pyFind pat t).map (· + 1)

/-- Python `pat in s`. -/
def containsSub (pat s : List Char) : Bool := (pyFind pat s).isSome

/-- The ellipsis marker `"..."`. -/
def ellipsis : List Char := ['.', '.', '.']

/-- The `for word in query_words: if word in content_lower` loop: the first
query word occurring in the lowered content, with its position. -/
def findFirstWord : List (List Char) → List Char → Option (Nat × Nat)
  | [], _ => none
  | w :: ws, cl =>
    match pyFind w cl with
    | some p => some (p, w.length)
    | none => findFirstWord ws cl

/-- `RAGService._generate_highlight`: window of 50 characters before to 200
characters after the first matching query word, clipped to the content, with
ellipsis markers for each trimmed side; first 200 characters (plus trailing
ellipsis when longer) when no query word matches.  `pos - 50` uses natural
subtraction, which is exactly `max(0, start_pos - 50)`. -/
def generateHighlight (content query : List Char) : List Char :=
  let cl := lowerChars content
  match findFirstWord (pyWords (lowerChars query)) cl with
  | some (pos, _) =>
    let ss := pos - 50
    let se := min content.length (pos + 200)
    let snippet := (content.drop ss).take (se - ss)
    let withPre := if 0 < ss then ellipsis ++ snippet else snippet
    if se < content.length then withPre ++ ellipsis else withPre
  | none =>
    if 200 < content.length then content.take 200 ++ ellipsis else content

/-! ## Retrieval pipeline (`RAGService.search_papers`,
`VectorDBService.search_similar_papers`) -/

/-- A raw candidate returned by the Chroma query inside
`VectorDBService.search_similar_papers` (id, document text, distance,
`paper_id` metadata). -/
structure VecResult where
  paperId : String
  content : List Char
  distance : ℚ
deriving Repr, DecidableEq

/-- A formatted result of `VectorDBService.search_similar_papers`. -/
structure ScoredResult where
  paperId : String
  content : List Char
  score : ℚ
deriving Repr, DecidableEq

/-- `VectorDBService.search_similar_papers` (lines 137-158): convert each
distance to `similarity_score = 1 - distance` and keep the candidates with
`similarity_score >= threshold`. -/
def searchSimilarPapers (raw : List VecResult) (threshold : ℚ) :
    List ScoredResult :=
  raw.filterMap (fun r =>
    let s := 1 - r.distance
    if s ≥ threshold then some ⟨r.paperId, r.content, s⟩ else none)

/-- A dictionary appended to `search_results` in `RAGService.search_papers`
(keys `paper_id`, `content_type`, `content`, `similarity_score`). -/
structure MergedResult where
  paper_id : String
  content_type : String
  content : List Char
  similarity_score : ℚ
deriving Repr, DecidableEq

/-- The duplicate-membership test
`any(r['paper']['id'] == paper_id for r in search_results)` of
`RAGService.search_papers` line 121.  The dictionaries stored in
`search_results` carry the key `'paper_id'` and no key `'paper'`, so
evaluating the generator body on any element raises `KeyError`; only the
empty list evaluates without error (to `False`). -/
def dedupCheck : List MergedResult → String → Except Unit Bool
  | [], _ => .ok false
  | _ :: _, _ => .error ()

/-- The inner loop of the cross-type merge (`search_papers` lines 118-128):
append each per-type result whose id is not already present, where presence
is decided by `dedupCheck`. -/
def addTypeResults (ct : String) (acc : List MergedResult) :
    List ScoredResult → Except Unit (List MergedResult)
  | [] => .ok acc
  | r :: rs => do
    if (← dedupCheck acc r.paperId) then
      addTypeResults ct acc rs
    else
      addTypeResults ct (acc ++ [⟨r.paperId, ct, r.content, r.score⟩]) rs

/-- A `papers` row as read by `session.get(Paper, ...)` and
`RAGService._apply_filters`. -/
structure Paper where
  id : String
  publication_date : Option Int
  quality_score : ℚ
  subject_areas : List String
  journal : Option (List Char)
  mesh_terms : List String
deriving Repr, DecidableEq

/-- The search filter dictionary consumed by `RAGService._apply_filters`
(publication dates abstracted to integers). -/
structure SearchFilters where
  date_range_start : Option Int
  date_range_end : Option Int
  min_quality_score : Option ℚ
  subject_area : Option String
  journal : Option (List Char)
  mesh_terms : Option (List String)
deriving Repr, DecidableEq

/-- `RAGService._apply_filters`: each check runs only when its filter value
is Python-truthy (so `0.0`, `""`, `[]` disable the respective filter), and a
paper failing any active check is excluded. -/
def applyFilters (p : Paper) (fOpt : Option SearchFilters) : Bool :=
  match fOpt with
  | none => true
  | some f =>
    let v1 := match f.date_range_start, p.publication_date with
      | some st, some pd => decide (pd < st)
      | _, _ => false
    let v2 := match f.date_range_end, p.publication_date with
      | some en, some pd => decide (en < pd)
      | _, _ => false
    let v3 := match f.min_quality_score with
      | some q => decide (q ≠ 0) && decide (p.quality_score < q)
      | none => false
    let v4 := match f.subject_area with
      | some a => decide (a ≠ "") && !(p.subject_areas.contains a)
      | none => false
    let v5 := match f.journal with
      | some j =>
        !j.isEmpty &&
          (match p.journal with
           | none => true
           | some pj => pj.isEmpty || !containsSub (lowerChars j) (lowerChars pj))
      | none => false
    let v6 := match f.mesh_terms with
      | some ms =>
        !ms.isEmpty &&
          (p.mesh_terms.isEmpty || !(ms.any (fun m => p.mesh_terms.contains m)))
      | none => false
    !(v1 || v2 || v3 || v4 || v5 || v6)

/-- The fields of a `SearchRequest` consumed by `RAGService.search_papers`. -/
structure SearchReq where
  query : List Char
  max_results : Nat
  min_confidence_score : ℚ
  include_full_text : Bool
  filters : Option SearchFilters

/-- The content types fanned out over (`search_papers` lines 105-107):
always `title` and `abstract`, plus `chunk` when full text is included. -/
def contentTypesFor (req : SearchReq) : List String :=
  ["title", "abstract"] ++ (if req.include_full_text then ["chunk"] else [])

/-- Environment of one search request: whether query embedding succeeds, the
outcome of each per-content-type vector query, the paper table, and the
elapsed wall-clock milliseconds measured by the handler. -/
structure SearchEnv where
  embedOk : Bool
  vecQuery : String → Except Unit (List VecResult)
  papers : List Paper
  elapsedMs : Nat

/-- `session.get(Paper, paper_id)`. -/
def sessionGet (papers : List Paper) (pid : String) : Option Paper :=
  papers.find? (fun p => p.id = pid)

/-- A `SearchResult` pydantic object. -/
structure SearchResultM where
  paper : Paper
  relevance_score : ℚ
  highlight : List Char
deriving Repr, DecidableEq

/-- A `SearchResponse` restricted to the fields the claims mention. -/
structure SearchResponseM where
  results : List SearchResultM
  total_results : Nat
  execution_time_ms : Nat
deriving Repr, DecidableEq

/-- One content type of the fan-out (`search_papers` lines 110-115): query
the vector store for that type and merge the scored results into the
accumulated list. -/
def mergeStep (env : SearchEnv) (req : SearchReq)
    (acc : List MergedResult) (ct : String) :
    Except Unit (List MergedResult) := do
  let raw ← env.vecQuery ct
  addTypeResults ct acc (searchSimilarPapers raw req.min_confidence_score)

/-- The fan-out plus cross-type merge of `search_papers` (lines 109-128). -/
def fanOutMerge (env : SearchEnv) (req : SearchReq) :
    Except Unit (List MergedResult) :=
  (contentTypesFor req).foldlM (mergeStep env req) []

/-- The hydrate-and-filter step for one surviving candidate (`search_papers`
lines 137-149): load the paper, drop it when a filter rejects it, otherwise
build the `SearchResult` with the highlight. -/
def hydrateResult (env : SearchEnv) (req : SearchReq) (r : MergedResult) :
    Option SearchResultM :=
  match sessionGet env.papers r.paper_id with
  | none => none
  | some p =>
    if applyFilters p req.filters then
      some ⟨p, r.similarity_score, generateHighlight r.content req.query⟩
    else none

/-- The body of `RAGService.search_papers` up to the `SearchResponse`
construction: embed the query, fan out, merge, sort by similarity descending
(Python stable sort with `reverse=True`), truncate to `max_results`, hydrate
and filter. -/
def searchPipeline (env : SearchEnv) (req : SearchReq) :
    Except Unit (List SearchResultM) := do
  if env.embedOk then pure () else throw ()
  let merged ← fanOutMerge env req
  let sorted :=
    merged.mergeSort (fun a b => decide (b.similarity_score ≤ a.similarity_score))
  let top := sorted.take req.max_results
  return top.filterMap (hydrateResult env req)

/-- `RAGService.search_papers`: the pipeline wrapped in the
`try`/`except` that degrades any pipeline error to an empty response carrying
the elapsed time. -/
def searchPapers (env : SearchEnv) (req : SearchReq) : SearchResponseM :=
  match searchPipeline env req with
  | .ok rs => ⟨rs, rs.length, env.elapsedMs⟩
  | .error _ => ⟨[], 0, env.elapsedMs⟩

/-! ## RAG ingestion path (`RAGService.process_paper_for_rag`,
`EmbeddingService.generate_paper_embeddings`) -/

/-- Python truthiness of an optional text field (`None` and `""` are
falsy). -/
def pyTruthyOptStr : Option (List Char) → Bool
  | none => false
  | some s => !s.isEmpty

/-- The embeddings dictionary built by
`EmbeddingService.generate_paper_embeddings`, reduced to the number of
vector-store records each entry produces when stored by
`process_paper_for_rag`/`VectorDBService.store_embeddings`: one per single
content type present, one per chunk for `full_text_chunks`. -/
def generatedEmbeddingCounts (p : PaperData) : List (String × Nat) :=
  (if !p.title.isEmpty then [("title", 1)] else []) ++
  (if pyTruthyOptStr p.abstract then [("abstract", 1)] else []) ++
  (if !p.mesh_terms.isEmpty then [("mesh_terms", 1)] else []) ++
  (match p.full_text with
   | some ft =>
     if !ft.isEmpty then [("full_text_chunks", (splitTextIntoChunksWords ft).length)]
     else []
   | none => [])

/-- Total number of vector-store `add` calls issued for a paper. -/
def totalEmbeddingStores (p : PaperData) : Nat :=
  ((generatedEmbeddingCounts p).map (fun e => e.2)).sum

/-- Environment of one `process_paper_for_rag` call: whether
`generate_paper_embeddings` raises, the index of the first vector-store add
that raises (if any), and whether `session.get(Paper, paper_id)` finds the
row. -/
structure RagEnv where
  embedFails : Bool
  storeFailIdx : Option Nat
  paperInDb : Bool
deriving Repr, DecidableEq

/-- Observable outcome of `process_paper_for_rag`: how many embedding records
were stored, the `processing_status` written to the paper row (`none` when
the row was not found), and whether the call re-raised. -/
structure RagOutcome where
  storedCount : Nat
  statusSet : Option String
  raised : Bool
deriving Repr, DecidableEq

/-- `RAGService.process_paper_for_rag`: generate the embeddings, store each
record, then mark the paper `processed` with `embedding_generated=True`; any
exception marks the paper `failed` and re-raises.  Status writes happen only
when the paper row is found. -/
def processPaperForRag (env : RagEnv) (p : PaperData) : RagOutcome :=
  if env.embedFails then
    ⟨0, if env.paperInDb then some "failed" else none, true⟩
  else
    let total := totalEmbeddingStores p
    match env.storeFailIdx with
    | some k =>
      if k < total then ⟨k, if env.paperInDb then some "failed" else none, true⟩
      else ⟨total, if env.paperInDb then some "processed" else none, false⟩
    | none => ⟨total, if env.paperInDb then some "processed" else none, false⟩

/-- A document owning at least one piece of embeddable content: a nonempty
title, a Python-truthy abstract, a nonempty MeSH term list, or full text
containing at least one word. -/
def hasEmbeddableContent (p : PaperData) : Bool :=
  !p.title.isEmpty || pyTruthyOptStr p.abstract || !p.mesh_terms.isEmpty ||
    (match p.full_text with
     | some ft => !(pyWords ft).isEmpty
     | none => false)

/-- The pattern `"diabetes"` as a character list. -/
def diabetes : List Char := ['d', 'i', 'a', 'b', 'e', 't', 'e', 's']

/-- A one-document paper table used by the concrete search scenarios. -/
def witPaper : Paper :=
  { id := "p1", publication_date := none, quality_score := mkRat 7 10,
    subject_areas := [], journal := none, mesh_terms := [] }

/-- A search environment with a single title hit at distance `1/5`
(similarity `4/5`). -/
def witEnv : SearchEnv :=
  { embedOk := true,
    vecQuery := fun ct =>
      if ct = "title" then .ok [⟨"p1", ['t'], mkRat 1 5⟩] else .ok [],
    papers := [witPaper],
    elapsedMs := 7 }

/-- A plain search request with `max_results = 10` and
`min_confidence_score = 7/10`. -/
def witReq : SearchReq :=
  { query := ['t'], max_results := 10, min_confidence_score := mkRat 7 10,
    include_full_text := false, filters := none }

/-- The specification's first-seen-wins scenario: the same document id
matches `title` at distance `2/5` (score `0.6`) and `abstract` at distance
`1/20` (score `0.95`). -/
def dupEnv : SearchEnv :=
  { embedOk := true,
    vecQuery := fun ct =>
      if ct = "title" then
        .ok [⟨"doc-1", "Diabetes care".toList, mkRat 2 5⟩]
      else if ct = "abstract" then
        .ok [⟨"doc-1", "Diabetes mellitus management".toList, mkRat 1 20⟩]
      else .ok [],
    papers := [{ id := "doc-1", publication_date := none,
                 quality_score := mkRat 7 10, subject_areas := [],
                 journal := none, mesh_terms := [] }],
    elapsedMs := 9 }

/-- The request of the first-seen-wins scenario. -/
def dupReq : SearchReq :=
  { query := "diabetes".toList, max_results := 10,
    min_confidence_score := mkRat 1 2, include_full_text := false,
    filters := none }

/-! # Theorems -/

/-! ## C10: cancel succeeds for every job id -/

/-- C10: for every job id, including ids never submitted and ids absent from
the active-job index, `cancel_job` returns `True` and issues the
status-`"failed"` update to the job store (updating the job's row whenever
one exists) and removes the id from the active index; it has no not-found
branch, unlike `get_job_status`, which answers `None` for unknown ids, and
unlike `pause_job`, which returns `False` for ids absent from the active-job
index. -/
theorem cancelJob_total (s : OrchState) (jobId : String) :
    (cancelJob jobId s).fst = true
    ∧ (cancelJob jobId s).snd.jobStore = setJobStatus s.jobStore jobId "failed"
    ∧ jobId ∉ (cancelJob jobId s).snd.activeJobs
    ∧ ((∀ j ∈ s.jobStore, j.id ≠ jobId) → getJobStatus jobId s = none)
    ∧ (jobId ∉ s.activeJobs → (pauseJob jobId s).fst = false) := by
  refine ⟨rfl, rfl, ?_, ?_, ?_⟩
  · intro hmem
    simp only [cancelJob, List.mem_filter] at hmem
    exact (by simpa using hmem.2 : jobId ≠ jobId) rfl
  · intro hnone
    simp only [getJobStatus, List.find?_eq_none, decide_eq_true_eq]
    intro j hj
    exact hnone j hj
  · intro habs
    simp [pauseJob, habs]

/-- Witness for C10 at the never-submitted id `"ghost"` and the empty
orchestrator state. -/
theorem cancelJob_total_witness :
    (cancelJob "ghost" ⟨[], []⟩).fst = true
    ∧ getJobStatus "ghost" ⟨[], []⟩ = none
    ∧ (pauseJob "ghost" ⟨[], []⟩).fst = false := by
  have h := cancelJob_total ⟨[], []⟩ "ghost"
  exact ⟨h.1, h.2.2.2.1 (by simp), h.2.2.2.2 (by simp)⟩

/-! ## C8: search degrades to an empty result set on pipeline errors -/

/-- C8: whenever any step of the retrieval pipeline raises (query embedding,
fan-out, or the merge), `search_papers` catches the error and returns an
empty result set carrying the elapsed time, instead of propagating the error
to the caller. -/
theorem searchPapers_degrades_on_error (env : SearchEnv) (req : SearchReq)
    (e : Unit) (h : searchPipeline env req = .error e) :
    searchPapers env req =
      { results := [], total_results := 0, execution_time_ms := env.elapsedMs } := by
  simp [searchPapers, h]

/-- Witness for C8: a request whose query embedding raises yields the empty
response with the measured elapsed time. -/
theorem searchPapers_degrades_on_error_witness :
    searchPapers
      { embedOk := false, vecQuery := fun _ => .ok [], papers := [], elapsedMs := 42 }
      { query := ['q'], max_results := 10, min_confidence_score := 7 / 10,
        include_full_text := false, filters := none } =
      { results := [], total_results := 0, execution_time_ms := 42 } :=
  searchPapers_degrades_on_error _ _ () rfl

/-! ## C3: submission never validates the source -/

/-- `find?` by id commutes with a map that preserves ids. -/
theorem find?_map_of_id_preserving (l : List JobRecord) (u : JobRecord → JobRecord)
    (hid : ∀ j, (u j).id = j.id) (jobId : String) :
    (l.map u).find? (fun j => j.id = jobId) =
      (l.find? (fun j => j.id = jobId)).map u := by
  induction l with
  | nil => rfl
  | cons a t ih =>
    by_cases h : a.id = jobId
    · simp [List.find?, hid, h]
    · simp [List.find?, hid, h, ih]

/-- Counterexample to C3: submitting a request whose source database is the
unsupported `"cochrane"` does not fail — it creates a `pending` job record
and returns the job id, refuting "the operation fails with an
UnsupportedSourceError and no job record is ever created". -/
theorem startBulkIngestion_unsupported_creates_job :
    (startBulkIngestion "job-1" ⟨"cochrane", 7 / 10⟩ ⟨[], []⟩).fst = "job-1"
    ∧ (startBulkIngestion "job-1" ⟨"cochrane", 7 / 10⟩ ⟨[], []⟩).snd.jobStore =
        [{ id := "job-1", source := "cochrane", status := "pending",
           counters := ⟨0, 0, 0, 0⟩, errors := [] }] :=
  ⟨rfl, rfl⟩

/-- C3 (amended): `start_bulk_ingestion` performs no source validation: for
every request — supported or not — a job record is created in state
`pending` and the job id is returned immediately; an unsupported source is
only detected by the background execution, which transitions the job to
`failed` with the single error `"Unsupported source database: <source>"`. -/
theorem startBulkIngestion_always_pending (jobId : String) (req : IngestRequest)
    (s : OrchState) (env : ExecEnv)
    (hfresh : ∀ j ∈ s.jobStore, j.id ≠ jobId) :
    (startBulkIngestion jobId req s).fst = jobId
    ∧ getJobStatus jobId (startBulkIngestion jobId req s).snd =
        some (pendingJob jobId req)
    ∧ (req.source_database ≠ "pubmed" →
        (getJobStatus jobId
            (executeBulkIngestion jobId req env (startBulkIngestion jobId req s).snd)).map
          (fun j => (j.status, j.errors)) =
        some ("failed", ["Unsupported source database: " ++ req.source_database])) := by
  have hnone : s.jobStore.find? (fun j => j.id = jobId) = none := by
    simp only [List.find?_eq_none, decide_eq_true_eq]
    exact hfresh
  have hbase :
      (s.jobStore ++ [pendingJob jobId req]).find? (fun j => j.id = jobId) =
        some (pendingJob jobId req) := by
    rw [List.find?_append, hnone]
    simp [pendingJob]
  refine ⟨rfl, ?_, ?_⟩
  · simpa [getJobStatus, startBulkIngestion] using hbase
  · intro hsrc
    have hmem : jobId ∈ s.activeJobs ++ [jobId] := by simp
    simp only [startBulkIngestion, executeBulkIngestion, getJobStatus, setJobStatus,
      List.map_map, if_pos hmem, if_neg hsrc]
    rw [find?_map_of_id_preserving _ _
      (fun j => by by_cases h : j.id = jobId <;> simp [h]), hbase]
    simp [pendingJob]

/-- Witness for C3 (amended) at a concrete unsupported-source request. -/
theorem startBulkIngestion_always_pending_witness :
    (startBulkIngestion "job-2" ⟨"cochrane", 0⟩ ⟨[], []⟩).fst = "job-2"
    ∧ (getJobStatus "job-2"
          (executeBulkIngestion "job-2" ⟨"cochrane", 0⟩ ⟨.ok []⟩
            (startBulkIngestion "job-2" ⟨"cochrane", 0⟩ ⟨[], []⟩).snd)).map
        (fun j => (j.status, j.errors)) =
      some ("failed", ["Unsupported source database: cochrane"]) := by
  have h := startBulkIngestion_always_pending "job-2" ⟨"cochrane", 0⟩ ⟨[], []⟩
    ⟨.ok []⟩ (by simp)
  exact ⟨h.1, h.2.2 (by decide)⟩

/-! ## C5: ordered, first-match-wins, fail-open duplicate detection -/

/-- C5: `_check_duplicate` implements exactly the ordered first-match-wins
policy worded by the spec — exact `pmid` match when the candidate has a
`pmid`, then exact `doi` match when it has a `doi`, then comparison of the
lower-cased-title fingerprint truncated to an 8-character prefix — and any
repository error occurring during the check makes the answer `false`
(fail-open). -/
theorem checkDuplicate_matches_spec (md5hex : List Char → List Char)
    (fl : DupFailures) (stored : List StoredPaper) (p : PaperData) :
    checkDuplicate md5hex fl stored p = specOrderedDupCheck md5hex fl stored p := by
  unfold checkDuplicate checkDuplicateE specOrderedDupCheck
  cases hp : p.pmid with
  | none =>
    cases hd : p.doi with
    | none =>
      cases ht : titleHashQuery md5hex fl stored p.title <;> simp [ht]
    | some d =>
      cases hq : doiQuery fl stored d with
      | error e => simp [hq]
      | ok b =>
        cases b
        · cases ht : titleHashQuery md5hex fl stored p.title <;> simp [hq, ht]
        · simp [hq]
  | some pm =>
    cases hq : pmidQuery fl stored pm with
    | error e => simp [hq]
    | ok b =>
      cases b
      · cases hd : p.doi with
        | none =>
          cases ht : titleHashQuery md5hex fl stored p.title <;> simp [hq, ht]
        | some d =>
          cases hq2 : doiQuery fl stored d with
          | error e => simp [hq, hq2]
          | ok b2 =>
            cases b2
            · cases ht : titleHashQuery md5hex fl stored p.title <;>
                simp [hq, hq2, ht]
            · simp [hq, hq2]
      · simp [hq]

/-! ## C1: progress-counter invariant -/

/-- Processing one document whose final per-document commit does not raise
adds exactly one to the three category counters combined. -/
theorem processPaper_sum_of_commit_ok (t : ℚ) (r : BatchResults) (e : PaperEvent)
    (h : e.commitFails = false) :
    (processPaper t r e).successful + (processPaper t r e).failed
      + (processPaper t r e).duplicates
      = r.successful + r.failed + r.duplicates + 1 := by
  unfold processPaper
  split_ifs <;> simp_all <;> omega

/-- A batch none of whose documents suffers a commit failure contributes
exactly its length to the category counters combined. -/
theorem processPaperBatch_sum_of_commit_ok (t : ℚ) (batch : List PaperEvent)
    (h : ∀ e ∈ batch, e.commitFails = false) :
    (processPaperBatch t batch).successful + (processPaperBatch t batch).failed
      + (processPaperBatch t batch).duplicates = batch.length := by
  suffices hgen : ∀ r : BatchResults,
      (batch.foldl (processPaper t) r).successful
        + (batch.foldl (processPaper t) r).failed
        + (batch.foldl (processPaper t) r).duplicates
      = r.successful + r.failed + r.duplicates + batch.length by
    simpa [processPaperBatch] using hgen ⟨0, 0, 0, []⟩
  induction batch with
  | nil => intro r; simp
  | cons e rest ih =>
    intro r
    have hrest : ∀ x ∈ rest, x.commitFails = false := fun x hx =>
      h x (List.mem_cons_of_mem e hx)
    have he : e.commitFails = false := h e (List.mem_cons_self e rest)
    calc ((e :: rest).foldl (processPaper t) r).successful
          + ((e :: rest).foldl (processPaper t) r).failed
          + ((e :: rest).foldl (processPaper t) r).duplicates
        = (processPaper t r e).successful + (processPaper t r e).failed
            + (processPaper t r e).duplicates + rest.length := by
          simpa using ih hrest (processPaper t r e)
      _ = r.successful + r.failed + r.duplicates + (e :: rest).length := by
          rw [processPaper_sum_of_commit_ok t r e he]
          simp [Nat.add_assoc, Nat.add_comm, Nat.add_left_comm]

/-- C1 (amended): provided no per-document database commit raises, every
progress checkpoint written after a batch — and hence the final one at
completion — satisfies `processed = successful + failed + duplicate`,
because each document then contributes exactly one increment to exactly one
category while `processed` advances by the batch length.  (A commit failure
raised after the category increment makes the document count twice — once in
its category and once as failed — breaking the equality; see the
counterexample.) -/
theorem jobCheckpoints_invariant (t : ℚ) (batches : List (List PaperEvent))
    (h : ∀ b ∈ batches, ∀ e ∈ b, e.commitFails = false) :
    ∀ c ∈ jobCheckpoints t ⟨0, 0, 0, 0⟩ batches,
      c.processed = c.successful + c.failed + c.duplicates := by
  suffices hgen : ∀ (c0 : JobCounters),
      c0.processed = c0.successful + c0.failed + c0.duplicates →
      ∀ c ∈ jobCheckpoints t c0 batches,
        c.processed = c.successful + c.failed + c.duplicates from
    hgen ⟨0, 0, 0, 0⟩ rfl
  induction batches with
  | nil => intro c0 _ c hc; simp [jobCheckpoints] at hc
  | cons b rest ih =>
    intro c0 h0 c hc
    have hb : ∀ e ∈ b, e.commitFails = false :=
      h b (List.mem_cons_self b rest)
    have hstep : (stepBatch t c0 b).processed =
        (stepBatch t c0 b).successful + (stepBatch t c0 b).failed
          + (stepBatch t c0 b).duplicates := by
      have hsum := processPaperBatch_sum_of_commit_ok t b hb
      simp only [stepBatch]
      omega
    have hrest : ∀ x ∈ rest, ∀ e ∈ x, e.commitFails = false := fun x hx =>
      h x (List.mem_cons_of_mem b hx)
    simp only [jobCheckpoints, List.mem_cons] at hc
    rcases hc with hc | hc
    · rw [hc]; exact hstep
    · exact ih hrest (stepBatch t c0 b) hstep c hc

/-- Counterexample to C1 as stated: a single-document batch whose paper
passes the quality gate and is processed successfully, but whose final
`session.commit()` raises, is counted both as successful and (by the
`except` handler) as failed, so the first checkpoint has
`processed = 1` but `successful + failed + duplicate = 2`. -/
theorem jobCheckpoints_invariant_cex :
    jobCheckpoints 0 ⟨0, 0, 0, 0⟩
        [[{ pmid := none, isDup := false, createFails := false,
            ragFails := false, commitFails := true }]] =
      [⟨1, 1, 1, 0⟩]
    ∧ (1 : Nat) ≠ 1 + 1 + 0 := by
  decide

/-- Witness for C1 (amended): a three-document batch — one duplicate, one
success, one creation failure, no commit failures — yields the checkpoint
`⟨3, 1, 1, 1⟩`, whose `processed` equals the sum of the three categories. -/
theorem jobCheckpoints_invariant_witness :
    (⟨3, 1, 1, 1⟩ : JobCounters).processed =
      (⟨3, 1, 1, 1⟩ : JobCounters).successful
        + (⟨3, 1, 1, 1⟩ : JobCounters).failed
        + (⟨3, 1, 1, 1⟩ : JobCounters).duplicates :=
  jobCheckpoints_invariant (mkRat 1 2)
    [[{ pmid := some "1", isDup := true, createFails := false,
        ragFails := false, commitFails := false },
      { pmid := some "2", isDup := false, createFails := false,
        ragFails := false, commitFails := false },
      { pmid := some "3", isDup := false, createFails := true,
        ragFails := false, commitFails := false }]]
    (by decide) ⟨3, 1, 1, 1⟩ (by decide)

/-! ## C6: `processed` status versus stored embeddings -/


/-- The chunking loop always emits at least one chunk when started strictly
inside the word list. -/
theorem chunkWordsGo_ne_nil (chunkSize overlap : Nat) (hov : overlap < chunkSize)
    (words : List String) (start : Nat) (h : start < words.length) :
    chunkWordsGo chunkSize overlap hov words start ≠ [] := by
  rw [chunkWordsGo]
  simp only [dif_pos h]
  split <;> simp

/-- A document with embeddable content generates at least one embedding
record. -/
theorem one_le_totalStores (p : PaperData) (h : hasEmbeddableContent p = true) :
    1 ≤ totalEmbeddingStores p := by
  unfold hasEmbeddableContent at h
  unfold totalEmbeddingStores generatedEmbeddingCounts
  simp only [Bool.or_eq_true] at h
  rcases h with ((h1 | h2) | h3) | h4
  · simp [h1] <;> omega
  · simp [h2] <;> omega
  · simp [h3] <;> omega
  · cases hft : p.full_text with
    | none => simp [hft] at h4
    | some ft =>
      simp only [hft] at h4
      have hne : ft ≠ [] := by
        intro hnil
        rw [hnil] at h4
        simp [pyWords, pyWordsAux] at h4
      have hlen : 0 < ((pyWords ft).map (fun w => String.mk w)).length := by
        simp only [List.length_map]
        cases hw : pyWords ft with
        | nil => rw [hw] at h4; simp at h4
        | cons a t => simp
      have hchunks : splitTextIntoChunksWords ft ≠ [] := by
        unfold splitTextIntoChunksWords
        exact chunkWordsGo_ne_nil _ _ _ _ 0 hlen
      have hc1 : 1 ≤ (splitTextIntoChunksWords ft).length :=
        Nat.one_le_iff_ne_zero.mpr (fun hz => hchunks (List.length_eq_zero.mp hz))
      have hfe : ft.isEmpty = false := by
        cases ft with
        | nil => exact absurd rfl hne
        | cons a t => rfl
      simp only [hft, hfe, Bool.not_false, if_true, List.map_append,
        List.sum_append]
      simp only [List.map_cons, List.map_nil, List.sum_cons, List.sum_nil]
      omega

/-- Counterexample to C6: a document with no embeddable content (empty
title, no abstract, no MeSH terms, no full text) is marked `processed` even
though zero embedding records were stored. -/
theorem processed_with_zero_embeddings :
    processPaperForRag ⟨false, none, true⟩
        { pmid := none, doi := none, title := [], abstract := none,
          mesh_terms := [], full_text := none } =
      { storedCount := 0, statusSet := some "processed", raised := false } := by
  rfl

/-- C6 (amended): a document is marked `processed` only when every generated
embedding record was stored without error; consequently a document with at
least one piece of embeddable content reaches `processed` only after at
least one embedding record was stored.  A document with no embeddable
content, however, is marked `processed` with zero stored embeddings.  When
embedding generation or any embedding store fails, the document is marked
`failed` instead (whenever its row is found). -/
theorem processed_requires_stored_embeddings (env : RagEnv) (p : PaperData) :
    ((processPaperForRag env p).statusSet = some "processed" →
      (processPaperForRag env p).storedCount = totalEmbeddingStores p
      ∧ (processPaperForRag env p).raised = false)
    ∧ ((processPaperForRag env p).statusSet = some "processed" →
        hasEmbeddableContent p = true →
        1 ≤ (processPaperForRag env p).storedCount)
    ∧ (env.embedFails = true → env.paperInDb = true →
        (processPaperForRag env p).statusSet = some "failed")
    ∧ (∀ k, env.storeFailIdx = some k → k < totalEmbeddingStores p →
        env.embedFails = false → env.paperInDb = true →
        (processPaperForRag env p).statusSet = some "failed") := by
  rcases env with ⟨ef, sf, indb⟩
  refine ⟨?_, ?_, ?_, ?_⟩
  · intro hstat
    unfold processPaperForRag at hstat ⊢
    cases ef with
    | true =>
      cases indb <;> simp_all
    | false =>
      cases sf with
      | none => simp_all
      | some k =>
        by_cases hk : k < totalEmbeddingStores p
        · cases indb <;> simp_all
        · simp only [if_neg hk]
          simp
  · intro hstat hcontent
    unfold processPaperForRag at hstat ⊢
    cases ef with
    | true => cases indb <;> simp_all
    | false =>
      have hone := one_le_totalStores p hcontent
      cases sf with
      | none => simpa using hone
      | some k =>
        by_cases hk : k < totalEmbeddingStores p
        · cases indb <;> simp_all
        · simp only [if_neg hk]
          simpa using hone
  · intro hef hdb
    unfold processPaperForRag
    simp_all
  · intro k hsf hk hef hdb
    unfold processPaperForRag
    simp_all

/-- Witness for C6 (amended): a document whose only content is the title
`"a"`, processed with no failures, is marked `processed` with its single
embedding stored. -/
theorem processed_requires_stored_embeddings_witness :
    1 ≤ (processPaperForRag ⟨false, none, true⟩
          { pmid := none, doi := none, title := ['a'], abstract := none,
            mesh_terms := [], full_text := none }).storedCount :=
  (processed_requires_stored_embeddings ⟨false, none, true⟩
    { pmid := none, doi := none, title := ['a'], abstract := none,
      mesh_terms := [], full_text := none }).2.1 (by decide) (by decide)

/-! ## C9: chunking termination, coverage, and size bound -/

/-- An element with index in `[start, e)` belongs to the slice
`words[start:e]`. -/
theorem get_mem_slice (words : List String) (start e i : Nat)
    (hi : i < words.length) (h1 : start ≤ i) (h2 : i < e) :
    words.get ⟨i, hi⟩ ∈ (words.drop start).take (e - start) := by
  have hd : i - start < (words.drop start).length := by
    rw [List.length_drop]; omega
  have step1 : words.get ⟨i, hi⟩ = (words.drop start).get ⟨i - start, hd⟩ := by
    have h3 := List.get_drop words (i := start) (j := i - start) (by omega)
    simpa [show start + (i - start) = i from by omega] using h3
  rw [step1, List.get_take (words.drop start) hd (show i - start < e - start from by omega)]
  exact List.get_mem _ _ _

/-- Every word of the input appears in at least one chunk emitted by the
chunking loop started at or before its index. -/
theorem chunkWordsGo_covers (chunkSize overlap : Nat) (hov : overlap < chunkSize)
    (words : List String) (start i : Nat) (hi : i < words.length)
    (hsi : start ≤ i) :
    ∃ c ∈ chunkWordsGo chunkSize overlap hov words start,
      words.get ⟨i, hi⟩ ∈ c := by
  rw [chunkWordsGo]
  by_cases h : start < words.length
  · simp only [dif_pos h]
    by_cases he : min (start + chunkSize) words.length < words.length
    · simp only [dif_pos he]
      by_cases hie : i < min (start + chunkSize) words.length
      · exact ⟨_, List.mem_cons_self _ _,
          get_mem_slice words start _ i hi hsi hie⟩
      · obtain ⟨c, hc, hm⟩ := chunkWordsGo_covers chunkSize overlap hov words
          (min (start + chunkSize) words.length - overlap) i hi (by omega)
        exact ⟨c, List.mem_cons_of_mem _ hc, hm⟩
    · simp only [dif_neg he]
      have hie : i < min (start + chunkSize) words.length := by omega
      exact ⟨_, List.mem_singleton_self _,
        get_mem_slice words start _ i hi hsi hie⟩
  · exact absurd (Nat.lt_of_le_of_lt hsi hi) h
termination_by words.length - start
decreasing_by omega

/-- Every chunk emitted by the chunking loop holds at most `chunkSize`
words. -/
theorem chunkWordsGo_size (chunkSize overlap : Nat) (hov : overlap < chunkSize)
    (words : List String) (start : Nat) :
    ∀ c ∈ chunkWordsGo chunkSize overlap hov words start,
      c.length ≤ chunkSize := by
  intro c hc
  rw [chunkWordsGo] at hc
  by_cases h : start < words.length
  · simp only [dif_pos h] at hc
    by_cases he : min (start + chunkSize) words.length < words.length
    · simp only [dif_pos he, List.mem_cons] at hc
      rcases hc with hc | hc
      · subst hc
        simp only [List.length_take, List.length_drop]
        omega
      · exact chunkWordsGo_size chunkSize overlap hov words
          (min (start + chunkSize) words.length - overlap) c hc
    · simp only [dif_neg he, List.mem_singleton] at hc
      subst hc
      simp only [List.length_take, List.length_drop]
      omega
  · simp [dif_neg h] at hc
termination_by words.length - start
decreasing_by omega

/-- C9: the full-text chunking procedure is a total function — its loop
terminates for every input because the configured overlap (200) is strictly
smaller than the chunk size (1000), each iteration advancing the start index
by at least `CHUNK_SIZE - CHUNK_OVERLAP` — and it covers the input: every
word of the text appears in at least one chunk, and every chunk holds at
most `CHUNK_SIZE` words. -/
theorem chunking_terminates_covers_bounded (text : List Char) :
    CHUNK_OVERLAP < CHUNK_SIZE
    ∧ (∀ i (hi : i < ((pyWords text).map (fun w => String.mk w)).length),
        ∃ c ∈ splitTextIntoChunksWords text,
          ((pyWords text).map (fun w => String.mk w)).get ⟨i, hi⟩ ∈ c)
    ∧ (∀ c ∈ splitTextIntoChunksWords text, c.length ≤ CHUNK_SIZE) := by
  refine ⟨by decide, ?_, ?_⟩
  · intro i hi
    exact chunkWordsGo_covers CHUNK_SIZE CHUNK_OVERLAP (by decide)
      ((pyWords text).map (fun w => String.mk w)) 0 i hi (Nat.zero_le i)
  · exact chunkWordsGo_size CHUNK_SIZE CHUNK_OVERLAP (by decide)
      ((pyWords text).map (fun w => String.mk w)) 0

/-- Witness for C9 at the two-word text `"alpha beta"`: the word `"alpha"`
appears in a chunk, and that chunk holds at most `CHUNK_SIZE` words. -/
theorem chunking_terminates_covers_bounded_witness :
    ∃ c ∈ splitTextIntoChunksWords "alpha beta".toList, "alpha" ∈ c := by
  have h := (chunking_terminates_covers_bounded "alpha beta".toList).2.1 0 (by decide)
  have hget :
      (((pyWords "alpha beta".toList).map (fun w => String.mk w)).get
        ⟨0, by decide⟩) = "alpha" := by decide
  rwa [hget] at h

/-! ## C7: highlight window -/


/-- A successful `listStartsWith` means the pattern is the prefix of the
scanned list. -/
theorem listStartsWith_spec : ∀ (pat s : List Char),
    listStartsWith pat s = true → pat.length ≤ s.length ∧ s.take pat.length = pat
  | [], _, _ => ⟨Nat.zero_le _, rfl⟩
  | _ :: _, [], h => by simp [listStartsWith] at h
  | a :: as, b :: bs, h => by
    simp only [listStartsWith, Bool.and_eq_true, decide_eq_true_eq] at h
    obtain ⟨hab, hrest⟩ := h
    obtain ⟨hl, ht⟩ := listStartsWith_spec as bs hrest
    subst hab
    exact ⟨Nat.succ_le_succ hl, by simp [List.take_cons, ht]⟩

/-- `listStartsWith` holds on a list headed by the pattern. -/
theorem listStartsWith_append (pat v : List Char) :
    listStartsWith pat (pat ++ v) = true := by
  induction pat with
  | nil => rfl
  | cons a as ih => simp [listStartsWith, ih]

/-- A hit of `pyFind` locates a genuine occurrence of the pattern. -/
theorem pyFind_some_spec : ∀ (pat s : List Char) (p : Nat),
    pyFind pat s = some p →
    p + pat.length ≤ s.length ∧ (s.drop p).take pat.length = pat := by
  intro pat s
  induction s with
  | nil =>
    intro p hp
    unfold pyFind at hp
    by_cases h : listStartsWith pat [] = true
    · obtain ⟨hl, ht⟩ := listStartsWith_spec pat [] h
      simp only [if_pos h, Option.some.injEq] at hp
      subst hp
      exact ⟨by simpa using hl, ht⟩
    · simp [h] at hp
  | cons c t ih =>
    intro p hp
    unfold pyFind at hp
    by_cases h : listStartsWith pat (c :: t) = true
    · obtain ⟨hl, ht⟩ := listStartsWith_spec pat (c :: t) h
      simp only [if_pos h, Option.some.injEq] at hp
      subst hp
      exact ⟨by simpa using hl, ht⟩
    · simp only [if_neg h, Option.map_eq_some'] at hp
      obtain ⟨q, hq, hpq⟩ := hp
      obtain ⟨hl, ht⟩ := ih q hq
      subst hpq
      exact ⟨by simpa [Nat.succ_add] using Nat.succ_le_succ hl, ht⟩

/-- `pyFind` succeeds whenever the pattern occurs in the scanned list. -/
theorem pyFind_isSome_of_infix : ∀ (s pat u v : List Char),
    s = u ++ pat ++ v → (pyFind pat s).isSome = true := by
  intro s
  induction s with
  | nil =>
    intro pat u v h
    rcases List.append_eq_nil.mp h.symm with ⟨h1, _⟩
    rcases List.append_eq_nil.mp h1 with ⟨_, hpat⟩
    subst hpat
    simp [pyFind, listStartsWith]
  | cons c t ih =>
    intro pat u v h
    unfold pyFind
    by_cases hsw : listStartsWith pat (c :: t) = true
    · simp [hsw]
    · cases u with
      | nil =>
        exfalso
        apply hsw
        have hpv : c :: t = pat ++ v := by simpa using h
        rw [hpv]
        exact listStartsWith_append pat v
      | cons c2 u2 =>
        simp only [List.cons_append] at h
        injection h with h1 h2
        simp only [if_neg hsw]
        simpa using ih pat u2 v h2

/-- An occurrence of the pattern inside the index window `[s, e)` of a list
survives as an occurrence inside the slice `l[s:e]`. -/
theorem slice_infix_of_at (l pat : List Char) (p s e : Nat)
    (hp : (l.drop p).take pat.length = pat) (hs : s ≤ p)
    (he : p + pat.length ≤ e) :
    ∃ u v, (l.drop s).take (e - s) = u ++ pat ++ v := by
  refine ⟨(l.drop s).take (p - s),
    ((l.drop p).drop pat.length).take (e - (p + pat.length)), ?_⟩
  have h1 : e - s = (p - s) + (pat.length + (e - (p + pat.length))) := by omega
  rw [h1, List.take_add, List.take_add]
  have h2 : (l.drop s).drop (p - s) = l.drop p := by
    rw [List.drop_drop]
    congr 1
    omega
  rw [h2, hp, List.append_assoc]

set_option maxRecDepth 8000 in
/-- Counterexample to C7: for content consisting of 51 characters, then
`"diabetes"`, then 193 more characters (252 characters total, containing
`"diabetes"`), the highlight for the query `"diabetes"` has length 256
(a 250-character window plus two 3-character ellipsis markers), exceeding
the claimed bound of 253. -/
theorem generateHighlight_cex :
    (∃ u v, lowerChars (List.replicate 51 'a' ++ diabetes ++ List.replicate 193 'b')
        = u ++ diabetes ++ v)
    ∧ 253 < (generateHighlight
        (List.replicate 51 'a' ++ diabetes ++ List.replicate 193 'b')
        diabetes).length := by
  constructor
  · exact ⟨List.replicate 51 'a', List.replicate 193 'b', by decide⟩
  · decide

/-- C7 (amended): the highlight of any content for any query is at most 256
characters long (a window from 50 before to 200 after the match, clipped to
the content, plus up to two 3-character ellipsis markers; the claimed bound
of 253 undercounts by one ellipsis), and for content containing
`"diabetes"` (in lower case — the matched window is located
case-insensitively, so the emitted characters are the content's original
ones) and query `"diabetes"`, the lower-cased highlight contains
`"diabetes"`. -/
theorem generateHighlight_window (content : List Char) :
    (∀ query, (generateHighlight content query).length ≤ 256)
    ∧ ((∃ u v, lowerChars content = u ++ diabetes ++ v) →
        ∃ u v, lowerChars (generateHighlight content diabetes)
          = u ++ diabetes ++ v) := by
  constructor
  · intro query
    unfold generateHighlight
    cases hf : findFirstWord (pyWords (lowerChars query)) (lowerChars content) with
    | none =>
      by_cases h : 200 < content.length
      · simp [hf, h, ellipsis]
      · simp only [hf, if_neg h]
        omega
    | some pr =>
      obtain ⟨pos, wl⟩ := pr
      by_cases hse : min content.length (pos + 200) < content.length <;>
        by_cases hss : 0 < pos - 50 <;>
          simp [hf, hse, hss, ellipsis, List.length_take, List.length_drop] <;>
            omega
  · intro hinf
    obtain ⟨u, v, huv⟩ := hinf
    have hq : pyWords (lowerChars diabetes) = [diabetes] := by decide
    have hsome : (pyFind diabetes (lowerChars content)).isSome = true :=
      pyFind_isSome_of_infix (lowerChars content) diabetes u v huv
    obtain ⟨pos, hpos⟩ := Option.isSome_iff_exists.mp hsome
    have hspec := pyFind_some_spec diabetes (lowerChars content) pos hpos
    have hlen : (lowerChars content).length = content.length := by
      simp [lowerChars]
    have hdl : diabetes.length = 8 := rfl
    have hwin : pos + 8 ≤ min content.length (pos + 200) := by
      refine le_min ?_ (by omega)
      omega
    have hfind : findFirstWord (pyWords (lowerChars diabetes)) (lowerChars content)
        = some (pos, diabetes.length) := by
      rw [hq]
      unfold findFirstWord
      rw [hpos]
    unfold generateHighlight
    simp only [hfind]
    have hsnip : ∃ su sv,
        lowerChars ((content.drop (pos - 50)).take
          (min content.length (pos + 200) - (pos - 50))) = su ++ diabetes ++ sv := by
      have hmap : lowerChars ((content.drop (pos - 50)).take
          (min content.length (pos + 200) - (pos - 50)))
          = ((lowerChars content).drop (pos - 50)).take
              (min content.length (pos + 200) - (pos - 50)) := by
        simp [lowerChars, List.map_take, List.map_drop]
      rw [hmap]
      exact slice_infix_of_at (lowerChars content) diabetes pos (pos - 50)
        (min content.length (pos + 200)) hspec.2 (by omega) (by omega)
    obtain ⟨su, sv, hsv⟩ := hsnip
    have hell : lowerChars ellipsis = ellipsis := rfl
    by_cases hse : min content.length (pos + 200) < content.length <;>
      by_cases hss : 0 < pos - 50
    · refine ⟨ellipsis ++ su, sv ++ ellipsis, ?_⟩
      simp only [if_pos hse, if_pos hss, lowerChars, List.map_append]
      rw [show (List.map Char.toLower ellipsis) = ellipsis from rfl]
      rw [show List.map Char.toLower ((content.drop (pos - 50)).take
            (min content.length (pos + 200) - (pos - 50)))
          = su ++ diabetes ++ sv from hsv]
      simp [List.append_assoc]
    · refine ⟨su, sv ++ ellipsis, ?_⟩
      simp only [if_pos hse, if_neg hss, lowerChars, List.map_append]
      rw [show (List.map Char.toLower ellipsis) = ellipsis from rfl]
      rw [show List.map Char.toLower ((content.drop (pos - 50)).take
            (min content.length (pos + 200) - (pos - 50)))
          = su ++ diabetes ++ sv from hsv]
      simp [List.append_assoc]
    · refine ⟨ellipsis ++ su, sv, ?_⟩
      simp only [if_neg hse, if_pos hss, lowerChars, List.map_append]
      rw [show (List.map Char.toLower ellipsis) = ellipsis from rfl]
      rw [show List.map Char.toLower ((content.drop (pos - 50)).take
            (min content.length (pos + 200) - (pos - 50)))
          = su ++ diabetes ++ sv from hsv]
      simp [List.append_assoc]
    · refine ⟨su, sv, ?_⟩
      simp only [if_neg hse, if_neg hss]
      exact hsv

/-- Witness for C7 (amended) at the content `"a diabetes study"`. -/
theorem generateHighlight_window_witness :
    ∃ u v, lowerChars (generateHighlight "a diabetes study".toList diabetes)
      = u ++ diabetes ++ v :=
  (generateHighlight_window "a diabetes study".toList).2
    ⟨['a', ' '], " study".toList, by decide⟩

/-! ## C2 and C4: cross-type merge and result-list shape -/

/-- Every result kept by `search_similar_papers` scores at least the
threshold it was filtered with. -/
theorem searchSimilarPapers_score (raw : List VecResult) (th : ℚ) :
    ∀ r ∈ searchSimilarPapers raw th, th ≤ r.score := by
  intro r hr
  unfold searchSimilarPapers at hr
  simp only [List.mem_filterMap] at hr
  obtain ⟨v, _, hsome⟩ := hr
  by_cases h : 1 - v.distance ≥ th
  · simp only [ge_iff_le, if_pos h] at hsome
    cases hsome
    exact h
  · simp only [ge_iff_le, if_neg h] at hsome
    cases hsome

/-- The merge loop preserves any per-entry predicate that holds on the
accumulated entries and on every entry built from the incoming results. -/
theorem addTypeResults_ok_pred (P : MergedResult → Prop) (ct : String) :
    ∀ (rs : List ScoredResult) (acc out : List MergedResult),
      (∀ m ∈ acc, P m) →
      (∀ r ∈ rs, P ⟨r.paperId, ct, r.content, r.score⟩) →
      addTypeResults ct acc rs = .ok out → ∀ m ∈ out, P m := by
  intro rs
  induction rs with
  | nil =>
    intro acc out hacc _ hok
    unfold addTypeResults at hok
    cases hok
    exact hacc
  | cons r rs ih =>
    intro acc out hacc hrs hok
    unfold addTypeResults at hok
    cases acc with
    | nil =>
      simp only [dedupCheck, bind, Except.bind] at hok
      refine ih [⟨r.paperId, ct, r.content, r.score⟩] out ?_ ?_ hok
      · intro m hm
        rw [List.mem_singleton] at hm
        subst hm
        exact hrs r (List.mem_cons_self r rs)
      · intro x hx
        exact hrs x (List.mem_cons_of_mem r hx)
    | cons a t =>
      simp only [dedupCheck, bind, Except.bind] at hok
      exact Except.noConfusion hok

/-- The merge loop keeps document ids distinct: whenever it finishes without
raising, the produced entries have pairwise-distinct `paper_id`s. -/
theorem addTypeResults_ok_nodup (ct : String) :
    ∀ (rs : List ScoredResult) (acc out : List MergedResult),
      (acc.map (fun m => m.paper_id)).Nodup →
      addTypeResults ct acc rs = .ok out →
      (out.map (fun m => m.paper_id)).Nodup := by
  intro rs
  induction rs with
  | nil =>
    intro acc out hacc hok
    unfold addTypeResults at hok
    cases hok
    exact hacc
  | cons r rs ih =>
    intro acc out hacc hok
    unfold addTypeResults at hok
    cases acc with
    | nil =>
      simp only [dedupCheck, bind, Except.bind] at hok
      exact ih [⟨r.paperId, ct, r.content, r.score⟩] out (by simp) hok
    | cons a t =>
      simp only [dedupCheck, bind, Except.bind] at hok
      exact Except.noConfusion hok

/-- Propagation of a per-entry predicate across the whole fan-out fold. -/
theorem foldlM_mergeStep_pred (env : SearchEnv) (req : SearchReq)
    (P : MergedResult → Prop)
    (hnew : ∀ (ct : String) (r : ScoredResult), req.min_confidence_score ≤ r.score →
      P ⟨r.paperId, ct, r.content, r.score⟩) :
    ∀ (cts : List String) (acc out : List MergedResult),
      (∀ m ∈ acc, P m) →
      cts.foldlM (mergeStep env req) acc = .ok out →
      ∀ m ∈ out, P m := by
  intro cts
  induction cts with
  | nil =>
    intro acc out hacc hok
    cases hok
    exact hacc
  | cons ct cts ih =>
    intro acc out hacc hok
    rw [List.foldlM_cons] at hok
    cases hstep : mergeStep env req acc ct with
    | error e =>
      rw [hstep] at hok
      simp only [bind, Except.bind] at hok
      exact Except.noConfusion hok
    | ok acc1 =>
      rw [hstep] at hok
      simp only [bind, Except.bind] at hok
      refine ih acc1 out ?_ hok
      unfold mergeStep at hstep
      cases hvq : env.vecQuery ct with
      | error e =>
        rw [hvq] at hstep
        simp only [bind, Except.bind] at hstep
        exact Except.noConfusion hstep
      | ok raw =>
        rw [hvq] at hstep
        simp only [bind, Except.bind] at hstep
        exact addTypeResults_ok_pred P ct _ acc acc1 hacc
          (fun r hr => hnew ct r (searchSimilarPapers_score raw _ r hr)) hstep

/-- Propagation of id-distinctness across the whole fan-out fold. -/
theorem foldlM_mergeStep_nodup (env : SearchEnv) (req : SearchReq) :
    ∀ (cts : List String) (acc out : List MergedResult),
      (acc.map (fun m => m.paper_id)).Nodup →
      cts.foldlM (mergeStep env req) acc = .ok out →
      (out.map (fun m => m.paper_id)).Nodup := by
  intro cts
  induction cts with
  | nil =>
    intro acc out hacc hok
    cases hok
    exact hacc
  | cons ct cts ih =>
    intro acc out hacc hok
    rw [List.foldlM_cons] at hok
    cases hstep : mergeStep env req acc ct with
    | error e =>
      rw [hstep] at hok
      simp only [bind, Except.bind] at hok
      exact Except.noConfusion hok
    | ok acc1 =>
      rw [hstep] at hok
      simp only [bind, Except.bind] at hok
      refine ih acc1 out ?_ hok
      unfold mergeStep at hstep
      cases hvq : env.vecQuery ct with
      | error e =>
        rw [hvq] at hstep
        simp only [bind, Except.bind] at hstep
        exact Except.noConfusion hstep
      | ok raw =>
        rw [hvq] at hstep
        simp only [bind, Except.bind] at hstep
        exact addTypeResults_ok_nodup ct _ acc acc1 hacc hstep

/-- Pairwise relations survive `filterMap` when the mapping translates the
relation. -/
theorem pairwise_filterMap_transfer {α β : Type} (f : α → Option β)
    (R : α → α → Prop) (S : β → β → Prop)
    (h : ∀ a b x y, R a b → f a = some x → f b = some y → S x y) :
    ∀ l : List α, l.Pairwise R → (l.filterMap f).Pairwise S := by
  intro l hl
  induction hl with
  | nil => simp
  | @cons a l' ha _ ih =>
    rw [List.filterMap_cons]
    cases hfa : f a with
    | none => exact ih
    | some x =>
      refine List.Pairwise.cons ?_ ih
      intro y hy
      obtain ⟨b, hb, hfb⟩ := List.mem_filterMap.mp hy
      exact h a b x y (ha b hb) hfa hfb

/-- A hydrated result carries the similarity score and document id of the
merged candidate it came from. -/
theorem hydrateResult_spec (env : SearchEnv) (req : SearchReq)
    (m : MergedResult) (r : SearchResultM)
    (h : hydrateResult env req m = some r) :
    r.relevance_score = m.similarity_score ∧ r.paper.id = m.paper_id := by
  unfold hydrateResult at h
  cases hget : sessionGet env.papers m.paper_id with
  | none =>
    simp only [hget] at h
    exact Option.noConfusion h
  | some p =>
    simp only [hget] at h
    by_cases hf : applyFilters p req.filters = true
    · rw [if_pos hf] at h
      cases h
      refine ⟨rfl, ?_⟩
      have hfind := List.find?_some hget
      simpa using hfind
    · rw [if_neg hf] at h
      cases h

/-- C4: for every search request, the returned result list has length at
most `max_results`, every returned relevance score is at least
`min_confidence_score`, the results are sorted by relevance score in
descending order, and no document id appears twice. -/
theorem searchPapers_wellformed (env : SearchEnv) (req : SearchReq) :
    (searchPapers env req).results.length ≤ req.max_results
    ∧ (∀ r ∈ (searchPapers env req).results,
        req.min_confidence_score ≤ r.relevance_score)
    ∧ (searchPapers env req).results.Pairwise
        (fun a b => b.relevance_score ≤ a.relevance_score)
    ∧ ((searchPapers env req).results.map (fun r => r.paper.id)).Nodup := by
  unfold searchPapers
  cases hp : searchPipeline env req with
  | error e => simp
  | ok rs =>
    simp only []
    unfold searchPipeline at hp
    by_cases hemb : env.embedOk
    case neg =>
      simp only [hemb, if_false, Bool.false_eq_true] at hp
      simp only [throw, throwThe, MonadExceptOf.throw, bind, Except.bind] at hp
      exact Except.noConfusion hp
    case pos =>
      simp only [hemb, if_true] at hp
      simp only [bind, Except.bind, pure, Except.pure] at hp
      cases hm : fanOutMerge env req with
      | error e =>
        rw [hm] at hp
        exact Except.noConfusion hp
      | ok merged =>
        rw [hm] at hp
        simp only [Except.ok.injEq] at hp
        have htrans : ∀ a b c : MergedResult,
            (fun a b : MergedResult =>
              decide (b.similarity_score ≤ a.similarity_score)) a b →
            (fun a b : MergedResult =>
              decide (b.similarity_score ≤ a.similarity_score)) b c →
            (fun a b : MergedResult =>
              decide (b.similarity_score ≤ a.similarity_score)) a c := by
          intro a b c hab hbc
          simp only [decide_eq_true_eq] at hab hbc ⊢
          exact le_trans hbc hab
        have htotal : ∀ a b : MergedResult,
            ((fun a b : MergedResult =>
              decide (b.similarity_score ≤ a.similarity_score)) a b
            || (fun a b : MergedResult =>
              decide (b.similarity_score ≤ a.similarity_score)) b a) = true := by
          intro a b
          simp only [Bool.or_eq_true, decide_eq_true_eq]
          exact le_total _ _
        have hscores : ∀ m ∈ merged,
            req.min_confidence_score ≤ m.similarity_score := by
          unfold fanOutMerge at hm
          exact foldlM_mergeStep_pred env req
            (fun m => req.min_confidence_score ≤ m.similarity_score)
            (fun _ r hr => hr) (contentTypesFor req) [] merged
            (by simp) hm
        have hnd : (merged.map (fun m => m.paper_id)).Nodup := by
          unfold fanOutMerge at hm
          exact foldlM_mergeStep_nodup env req (contentTypesFor req) [] merged
            (by simp) hm
        have hsorted := @List.sorted_mergeSort MergedResult
          (fun a b : MergedResult =>
            decide (b.similarity_score ≤ a.similarity_score))
          htrans htotal merged
        have htop : ((merged.mergeSort (fun a b =>
            decide (b.similarity_score ≤ a.similarity_score))).take
              req.max_results).Sublist
            (merged.mergeSort (fun a b =>
              decide (b.similarity_score ≤ a.similarity_score))) :=
          List.take_sublist _ _
        refine ⟨?_, ?_, ?_, ?_⟩
        · rw [← hp]
          exact (List.length_filterMap_le _ _).trans
            (by simpa using List.length_take_le _ _)
        · intro r hr
          rw [← hp] at hr
          obtain ⟨m, hmtop, hsome⟩ := List.mem_filterMap.mp hr
          have hmm : m ∈ merged :=
            List.mem_mergeSort.mp (List.mem_of_mem_take hmtop)
          have := (hydrateResult_spec env req m r hsome).1
          rw [this]
          exact hscores m hmm
        · rw [← hp]
          refine pairwise_filterMap_transfer (hydrateResult env req)
            (fun a b => (decide (b.similarity_score ≤ a.similarity_score)) = true)
            (fun x y => y.relevance_score ≤ x.relevance_score) ?_ _
            (List.Pairwise.sublist htop hsorted)
          intro a b x y hab hfa hfb
          rw [(hydrateResult_spec env req a x hfa).1,
            (hydrateResult_spec env req b y hfb).1]
          simpa using hab
        · rw [← hp]
          refine (List.pairwise_map).mpr ?_
          refine pairwise_filterMap_transfer (hydrateResult env req)
            (fun a b => a.paper_id ≠ b.paper_id)
            (fun x y => x.paper.id ≠ y.paper.id) ?_ _ ?_
          · intro a b x y hab hfa hfb
            rw [(hydrateResult_spec env req a x hfa).2,
              (hydrateResult_spec env req b y hfb).2]
            exact hab
          · refine List.Pairwise.sublist htop ?_
            have hmergedPW : merged.Pairwise
                (fun a b => a.paper_id ≠ b.paper_id) := by
              have := hnd
              rw [List.Nodup, List.pairwise_map] at this
              exact this
            have hperm := List.mergeSort_perm merged (fun a b =>
              decide (b.similarity_score ≤ a.similarity_score))
            exact (hperm.pairwise_iff
              (fun hab heq => hab heq.symm)).mpr hmergedPW


/-- Witness for C4: the single returned result of the concrete scenario
scores at least the request's minimum confidence score. -/
theorem searchPapers_wellformed_witness :
    witReq.min_confidence_score ≤
      ({ paper := witPaper, relevance_score := 1 - mkRat 1 5,
         highlight := generateHighlight ['t'] ['t'] } : SearchResultM).relevance_score := by
  have hge : (1 : ℚ) - mkRat 1 5 ≥ mkRat 7 10 := by
    rw [Rat.mkRat_eq_div, Rat.mkRat_eq_div]
    norm_num
  have hs1 : searchSimilarPapers [⟨"p1", ['t'], mkRat 1 5⟩] (mkRat 7 10)
      = [⟨"p1", ['t'], 1 - mkRat 1 5⟩] := by
    unfold searchSimilarPapers
    simp only [List.filterMap_cons, List.filterMap_nil]
    rw [if_pos hge]
  have hs0 : searchSimilarPapers [] (mkRat 7 10) = [] := rfl
  have hres : (searchPapers witEnv witReq).results
      = [{ paper := witPaper, relevance_score := 1 - mkRat 1 5,
           highlight := generateHighlight ['t'] ['t'] }] := by
    unfold searchPapers searchPipeline fanOutMerge mergeStep contentTypesFor
      witEnv witReq
    simp only [if_true, if_false, Bool.false_eq_true, bind, Except.bind,
      pure, Except.pure, List.append_nil]
    simp only [List.foldlM_cons, List.foldlM_nil]
    simp only [String.reduceEq, reduceIte, hs1, hs0]
    simp only [addTypeResults, dedupCheck, bind, Except.bind, pure, Except.pure]
    simp only [Bool.false_eq_true, if_false, List.nil_append]
    simp only [List.mergeSort_singleton]
    rfl
  exact (searchPapers_wellformed witEnv witReq).2.1 _
    (by rw [hres]; exact List.mem_singleton_self _)


/-- C2: the cross-type merge is not first-seen-wins — the membership test
`any(r['paper']['id'] == paper_id for r in search_results)` reads the key
`'paper'` which the merged dictionaries (keyed `'paper_id'`) do not have, so
as soon as a second candidate arrives the generator body raises `KeyError`
and the outer handler turns the whole search into an empty result set.  In
the spec's own scenario (one document matching `title` at score `0.6` and
`abstract` at score `0.95`), the pipeline raises and the search returns no
results instead of the `title` entry. -/
theorem merge_keyerror_empties_search :
    searchPipeline dupEnv dupReq = .error ()
    ∧ searchPapers dupEnv dupReq =
        { results := [], total_results := 0, execution_time_ms := 9 } := by
  have hge1 : (1 : ℚ) - mkRat 2 5 ≥ mkRat 1 2 := by
    rw [Rat.mkRat_eq_div, Rat.mkRat_eq_div]
    norm_num
  have hge2 : (1 : ℚ) - mkRat 1 20 ≥ mkRat 1 2 := by
    rw [Rat.mkRat_eq_div, Rat.mkRat_eq_div]
    norm_num
  have hsA : searchSimilarPapers
      [⟨"doc-1", "Diabetes care".toList, mkRat 2 5⟩] (mkRat 1 2)
      = [⟨"doc-1", "Diabetes care".toList, 1 - mkRat 2 5⟩] := by
    unfold searchSimilarPapers
    simp only [List.filterMap_cons, List.filterMap_nil]
    rw [if_pos hge1]
  have hsB : searchSimilarPapers
      [⟨"doc-1", "Diabetes mellitus management".toList, mkRat 1 20⟩] (mkRat 1 2)
      = [⟨"doc-1", "Diabetes mellitus management".toList, 1 - mkRat 1 20⟩] := by
    unfold searchSimilarPapers
    simp only [List.filterMap_cons, List.filterMap_nil]
    rw [if_pos hge2]
  have hpipe : searchPipeline dupEnv dupReq = .error () := by
    unfold searchPipeline fanOutMerge mergeStep contentTypesFor dupEnv dupReq
    simp only [if_true, if_false, Bool.false_eq_true, bind, Except.bind,
      pure, Except.pure, List.append_nil]
    simp only [List.foldlM_cons, List.foldlM_nil]
    simp only [String.reduceEq, reduceIte, hsA, hsB]
    simp only [addTypeResults, dedupCheck, bind, Except.bind, pure, Except.pure]
    simp only [Bool.false_eq_true, if_false, List.nil_append]
  refine ⟨hpipe, ?_⟩
  unfold searchPapers
  rw [hpipe]
  rfl

end BiomedRag
